import Mathlib

/-!
Verification of the tic2json TIC decoder against its specification.

The definitions below are a shallow embedding of the C sources of the
tic2json repository: the flex scanners (ticv01.l, ticv02.l, ticv01pme.l),
the bison grammar actions (ticv01.y, ticv02.y, ticv01pme.y), the common
field constructor make_field (tic.c), and the output sink (tic2json.c:
print_field, frame_sep, frame_err, print_stge_data, print_pjour_data).
Machine integers are modelled as Nat or Int with explicit reductions
modulo powers of two where the C code relies on fixed-width overflow.
-/

/-! ## Checksum accumulation (crc_calc of the three lexers)

Each lexer keeps a file-scoped `uint8_t checksum` and a helper crc_calc
that adds every byte of the matched text to it.  Bytes are modelled as
Nat below 256 and the uint8 accumulation as addition modulo 256. -/

/-- Model of crc_calc: fold the matched bytes into the uint8 accumulator. -/
def crc_calc (checksum : Nat) (ytext : List Nat) : Nat :=
  ytext.foldl (fun a b => (a + b) % 256) checksum

theorem crc_calc_eq_sum (checksum : Nat) (ytext : List Nat) (h : checksum < 256) :
    crc_calc checksum ytext = (checksum + ytext.sum) % 256 := by
  induction ytext generalizing checksum with
  | nil => simp [crc_calc, Nat.mod_eq_of_lt h]
  | cons b bs ih =>
    have hlt : (checksum + b) % 256 < 256 := Nat.mod_lt _ (by norm_num)
    show crc_calc ((checksum + b) % 256) bs = _
    rw [ih _ hlt, List.sum_cons, Nat.mod_add_mod, Nat.add_assoc]

theorem crc_calc_lt (checksum : Nat) (ytext : List Nat) (h : checksum < 256) :
    crc_calc checksum ytext < 256 := by
  cases ytext with
  | nil => exact h
  | cons b bs => rw [crc_calc_eq_sum _ _ h]; exact Nat.mod_lt _ (by norm_num)

/-- Low six bits of a sum are unaffected by the uint8 reduction. -/
theorem mod256_and_63 (n : Nat) : n % 256 &&& 63 = n &&& 63 := by
  have h1 := Nat.and_pow_two_sub_one_eq_mod (n % 256) 6
  have h2 := Nat.and_pow_two_sub_one_eq_mod n 6
  norm_num at h1 h2
  rw [h1, h2]

/-! ## The V02 scanner (ticv02.l)

The scanner is modelled at the granularity of its flex rules: one
`Lexeme02` per matched rule, carrying the matched bytes where the rule
uses them.  The rule actions of ticv02.l are transcribed one by one:
 - 0x02 STX and 0x03 ETX leave the accumulator alone;
 - 0x0a LF zeroes the accumulator and starts a dataset;
 - the separator 0x09 adds itself to the accumulator;
 - every etiquette rule and the two DATA-state rules (HORODATE, DATAC+)
   call crc_calc on the matched text;
 - the rule CHKSUM followed by 0x0d folds the accumulator as
   (checksum AND 0x3f) + 0x20 and compares it with the first matched
   byte (the byte immediately preceding CR), yielding FIELD_OK on
   equality and FIELD_KO otherwise.  Neither the checksum byte nor the
   CR is added to the accumulator. -/

inductive Lexeme02 where
  | stx
  | etx
  | lf
  | sep
  | label (bs : List Nat)
  | hdate (bs : List Nat)
  | dat (bs : List Nat)
  | ckcr (ck : Nat)
deriving DecidableEq

inductive Token02 where
  | TOK_STX
  | TOK_ETX
  | FIELD_START
  | TOK_SEP
  | ET (bs : List Nat)
  | TOK_HDATE (bs : List Nat)
  | TOK_DATA (bs : List Nat)
  | FIELD_OK
  | FIELD_KO
deriving DecidableEq

/-- One scanner step of ticv02.l: next accumulator value and the token
returned by the fired rule. -/
def ticv02_step (checksum : Nat) : Lexeme02 → Nat × Token02
  | .stx => (checksum, .TOK_STX)
  | .etx => (checksum, .TOK_ETX)
  | .lf => (0, .FIELD_START)
  | .sep => ((checksum + 0x09) % 256, .TOK_SEP)
  | .label bs => (crc_calc checksum bs, .ET bs)
  | .hdate bs => (crc_calc checksum bs, .TOK_HDATE bs)
  | .dat bs => (crc_calc checksum bs, .TOK_DATA bs)
  | .ckcr ck =>
      ((checksum &&& 0x3f) + 0x20,
       if (checksum &&& 0x3f) + 0x20 = ck then .FIELD_OK else .FIELD_KO)

def ticv02_run (checksum : Nat) : List Lexeme02 → Nat × List Token02
  | [] => (checksum, [])
  | l :: ls =>
      let s := ticv02_step checksum l
      let r := ticv02_run s.1 ls
      (r.1, s.2 :: r.2)

/-- Lexemes that can occur between the dataset-starting LF and the
checksum-and-CR match: the separator, an etiquette, a horodate or a data
run. -/
def isMid02 : Lexeme02 → Bool
  | .sep => true
  | .label _ => true
  | .hdate _ => true
  | .dat _ => true
  | _ => false

/-- The bytes of a dataset that the scanner feeds into the accumulator:
the etiquette bytes, each separator byte (0x09), and the horodate and
data bytes.  The LF, the CR and the checksum byte never appear here. -/
def covered02 : List Lexeme02 → List Nat
  | [] => []
  | .sep :: ls => 0x09 :: covered02 ls
  | .label bs :: ls => bs ++ covered02 ls
  | .hdate bs :: ls => bs ++ covered02 ls
  | .dat bs :: ls => bs ++ covered02 ls
  | _ :: ls => covered02 ls

/-- Scanning one whole V02 dataset: the LF, the body lexemes, then the
checksum byte followed by CR.  The result is the token produced by the
final rule. -/
def ticv02_dataset (cs0 : Nat) (mids : List Lexeme02) (ck : Nat) : Option Token02 :=
  (ticv02_run cs0 (Lexeme02.lf :: (mids ++ [Lexeme02.ckcr ck]))).2.getLast?

theorem ticv02_run_append (cs : Nat) (as bs : List Lexeme02) :
    ticv02_run cs (as ++ bs) =
      ((ticv02_run (ticv02_run cs as).1 bs).1,
       (ticv02_run cs as).2 ++ (ticv02_run (ticv02_run cs as).1 bs).2) := by
  induction as generalizing cs with
  | nil => simp [ticv02_run]
  | cons a tl ih => simp [ticv02_run, ih]

theorem ticv02_run_mid_checksum (cs : Nat) (mids : List Lexeme02)
    (h : mids.all isMid02 = true) (hlt : cs < 256) :
    (ticv02_run cs mids).1 = (cs + (covered02 mids).sum) % 256 := by
  induction mids generalizing cs with
  | nil => simp [ticv02_run, covered02, Nat.mod_eq_of_lt hlt]
  | cons l ls ih =>
    simp only [List.all_cons, Bool.and_eq_true] at h
    cases l with
    | sep =>
      show (ticv02_run ((cs + 0x09) % 256) ls).1 = _
      rw [ih _ h.2 (Nat.mod_lt _ (by norm_num))]
      show _ = (cs + (0x09 :: covered02 ls).sum) % 256
      rw [List.sum_cons, Nat.mod_add_mod, Nat.add_assoc]
    | label bs =>
      show (ticv02_run (crc_calc cs bs) ls).1 = _
      rw [ih _ h.2 (crc_calc_lt _ _ hlt), crc_calc_eq_sum _ _ hlt]
      show _ = (cs + (bs ++ covered02 ls).sum) % 256
      rw [List.sum_append, Nat.mod_add_mod, Nat.add_assoc]
    | hdate bs =>
      show (ticv02_run (crc_calc cs bs) ls).1 = _
      rw [ih _ h.2 (crc_calc_lt _ _ hlt), crc_calc_eq_sum _ _ hlt]
      show _ = (cs + (bs ++ covered02 ls).sum) % 256
      rw [List.sum_append, Nat.mod_add_mod, Nat.add_assoc]
    | dat bs =>
      show (ticv02_run (crc_calc cs bs) ls).1 = _
      rw [ih _ h.2 (crc_calc_lt _ _ hlt), crc_calc_eq_sum _ _ hlt]
      show _ = (cs + (bs ++ covered02 ls).sum) % 256
      rw [List.sum_append, Nat.mod_add_mod, Nat.add_assoc]
    | stx => simp [isMid02] at h
    | etx => simp [isMid02] at h
    | lf => simp [isMid02] at h
    | ckcr ck => simp [isMid02] at h

/-- Claim C1: a V02 dataset is accepted (FIELD_OK) exactly when the checksum
byte that immediately precedes the CR equals
((sum of the covered bytes) AND 0x3f) + 0x20, the covered bytes being
the etiquette bytes, every separator byte and the horodate/data bytes of
the dataset and nothing else (in particular not the LF, the CR or the
checksum byte itself, which covered02 excludes by construction); when
the equality fails the scanner emits FIELD_KO instead. -/
theorem ticv02_checksum_correct (cs0 : Nat) (mids : List Lexeme02) (ck : Nat)
    (h : mids.all isMid02 = true) :
    (ticv02_dataset cs0 mids ck = some Token02.FIELD_OK ↔
       ((covered02 mids).sum &&& 0x3f) + 0x20 = ck) ∧
    (ticv02_dataset cs0 mids ck = some Token02.FIELD_KO ↔
       ((covered02 mids).sum &&& 0x3f) + 0x20 ≠ ck) := by
  have hrun : (ticv02_run 0 mids).1 = (covered02 mids).sum % 256 := by
    rw [ticv02_run_mid_checksum 0 mids h (by norm_num), Nat.zero_add]
  have hds : ticv02_dataset cs0 mids ck =
      some (if ((covered02 mids).sum % 256 &&& 0x3f) + 0x20 = ck
            then Token02.FIELD_OK else Token02.FIELD_KO) := by
    show (ticv02_run cs0 (Lexeme02.lf :: (mids ++ [Lexeme02.ckcr ck]))).2.getLast? = _
    show (let s := ticv02_step cs0 Lexeme02.lf
          let r := ticv02_run s.1 (mids ++ [Lexeme02.ckcr ck])
          (r.1, s.2 :: r.2)).2.getLast? = _
    show (Token02.FIELD_START ::
            (ticv02_run 0 (mids ++ [Lexeme02.ckcr ck])).2).getLast? = _
    rw [ticv02_run_append, hrun]
    show (Token02.FIELD_START ::
            ((ticv02_run 0 mids).2 ++
             [if ((covered02 mids).sum % 256 &&& 0x3f) + 0x20 = ck
              then Token02.FIELD_OK else Token02.FIELD_KO])).getLast? = _
    rw [List.getLast?_cons, List.getLast?_concat]
    simp
  rw [hds, mod256_and_63]
  constructor
  · constructor
    · intro he
      by_contra hne
      rw [if_neg hne] at he
      exact Token02.noConfusion (Option.some.inj he)
    · intro he; rw [if_pos he]
  · constructor
    · intro he
      intro heq
      rw [if_pos heq] at he
      exact Token02.noConfusion (Option.some.inj he)
    · intro hne; rw [if_neg hne]

/-- Witness for C1 on a concrete dataset: the minimal ADSC dataset of
the specification scenarios, with its correct checksum byte 0x3b. -/
theorem ticv02_checksum_correct_witness :
    ticv02_dataset 0
      [Lexeme02.label [0x41, 0x44, 0x53, 0x43], Lexeme02.sep,
       Lexeme02.dat [0x30, 0x31, 0x32, 0x33, 0x34, 0x35, 0x36, 0x37, 0x38, 0x39, 0x30, 0x31],
       Lexeme02.sep] 0x3b = some Token02.FIELD_OK :=
  (ticv02_checksum_correct 0
    [Lexeme02.label [0x41, 0x44, 0x53, 0x43], Lexeme02.sep,
     Lexeme02.dat [0x30, 0x31, 0x32, 0x33, 0x34, 0x35, 0x36, 0x37, 0x38, 0x39, 0x30, 0x31],
     Lexeme02.sep] 0x3b (by decide)).1.mpr (by decide)

/-! ## The V01 scanner (ticv01.l)

Identical structure to V02 with three differences transcribed from the
source: the separator byte is 0x20 (SP), an EOT rule exists, and the
checksum rule first subtracts 0x20 from the uint8 accumulator
("we have one space too many in the checksum: last SEP") before the
fold and compare.  The uint8 subtraction is modelled as adding 256 - 0x20
modulo 256. -/

inductive Lexeme01 where
  | stx
  | etx
  | eot
  | lf
  | sep
  | label (bs : List Nat)
  | dat (bs : List Nat)
  | ckcr (ck : Nat)
deriving DecidableEq

inductive Token01 where
  | TOK_STX
  | TOK_ETX
  | TOK_EOT
  | FIELD_START
  | TOK_SEP
  | ET (bs : List Nat)
  | TOK_DATA (bs : List Nat)
  | FIELD_OK
  | FIELD_KO
deriving DecidableEq

/-- One scanner step of ticv01.l. -/
def ticv01_step (checksum : Nat) : Lexeme01 → Nat × Token01
  | .stx => (checksum, .TOK_STX)
  | .etx => (checksum, .TOK_ETX)
  | .eot => (checksum, .TOK_EOT)
  | .lf => (0, .FIELD_START)
  | .sep => ((checksum + 0x20) % 256, .TOK_SEP)
  | .label bs => (crc_calc checksum bs, .ET bs)
  | .dat bs => (crc_calc checksum bs, .TOK_DATA bs)
  | .ckcr ck =>
      (((checksum + 256 - 0x20) % 256 &&& 0x3f) + 0x20,
       if ((checksum + 256 - 0x20) % 256 &&& 0x3f) + 0x20 = ck
       then .FIELD_OK else .FIELD_KO)

def ticv01_run (checksum : Nat) : List Lexeme01 → Nat × List Token01
  | [] => (checksum, [])
  | l :: ls =>
      let s := ticv01_step checksum l
      let r := ticv01_run s.1 ls
      (r.1, s.2 :: r.2)

def isMid01 : Lexeme01 → Bool
  | .sep => true
  | .label _ => true
  | .dat _ => true
  | _ => false

/-- Bytes fed into the V01 accumulator: etiquette bytes, each separator
byte (0x20 in this dialect), and the data bytes. -/
def covered01 : List Lexeme01 → List Nat
  | [] => []
  | .sep :: ls => 0x20 :: covered01 ls
  | .label bs :: ls => bs ++ covered01 ls
  | .dat bs :: ls => bs ++ covered01 ls
  | _ :: ls => covered01 ls

def ticv01_dataset (cs0 : Nat) (mids : List Lexeme01) (ck : Nat) : Option Token01 :=
  (ticv01_run cs0 (Lexeme01.lf :: (mids ++ [Lexeme01.ckcr ck]))).2.getLast?

theorem ticv01_run_append (cs : Nat) (as bs : List Lexeme01) :
    ticv01_run cs (as ++ bs) =
      ((ticv01_run (ticv01_run cs as).1 bs).1,
       (ticv01_run cs as).2 ++ (ticv01_run (ticv01_run cs as).1 bs).2) := by
  induction as generalizing cs with
  | nil => simp [ticv01_run]
  | cons a tl ih => simp [ticv01_run, ih]

theorem ticv01_run_mid_checksum (cs : Nat) (mids : List Lexeme01)
    (h : mids.all isMid01 = true) (hlt : cs < 256) :
    (ticv01_run cs mids).1 = (cs + (covered01 mids).sum) % 256 := by
  induction mids generalizing cs with
  | nil => simp [ticv01_run, covered01, Nat.mod_eq_of_lt hlt]
  | cons l ls ih =>
    simp only [List.all_cons, Bool.and_eq_true] at h
    cases l with
    | sep =>
      show (ticv01_run ((cs + 0x20) % 256) ls).1 = _
      rw [ih _ h.2 (Nat.mod_lt _ (by norm_num))]
      show _ = (cs + (0x20 :: covered01 ls).sum) % 256
      rw [List.sum_cons, Nat.mod_add_mod, Nat.add_assoc]
    | label bs =>
      show (ticv01_run (crc_calc cs bs) ls).1 = _
      rw [ih _ h.2 (crc_calc_lt _ _ hlt), crc_calc_eq_sum _ _ hlt]
      show _ = (cs + (bs ++ covered01 ls).sum) % 256
      rw [List.sum_append, Nat.mod_add_mod, Nat.add_assoc]
    | dat bs =>
      show (ticv01_run (crc_calc cs bs) ls).1 = _
      rw [ih _ h.2 (crc_calc_lt _ _ hlt), crc_calc_eq_sum _ _ hlt]
      show _ = (cs + (bs ++ covered01 ls).sum) % 256
      rw [List.sum_append, Nat.mod_add_mod, Nat.add_assoc]
    | stx => simp [isMid01] at h
    | etx => simp [isMid01] at h
    | eot => simp [isMid01] at h
    | lf => simp [isMid01] at h
    | ckcr ck => simp [isMid01] at h

/-- A trailing separator lexeme guarantees the accumulated sum holds at
least one separator byte 0x20. -/
theorem covered01_sum_ge_sep (mids : List Lexeme01)
    (h : mids.getLast? = some Lexeme01.sep) :
    0x20 ≤ (covered01 mids).sum := by
  induction mids with
  | nil => simp at h
  | cons l ls ih =>
    cases ls with
    | nil =>
      simp only [List.getLast?_singleton, Option.some.injEq] at h
      subst h
      simp [covered01]
    | cons l2 ls2 =>
      rw [List.getLast?_cons_cons] at h
      have hle := ih h
      cases l with
      | sep => exact le_trans hle (by simp [covered01])
      | label bs => exact le_trans hle (by simp [covered01])
      | dat bs => exact le_trans hle (by simp [covered01])
      | stx => exact le_trans hle (by simp [covered01])
      | etx => exact le_trans hle (by simp [covered01])
      | eot => exact le_trans hle (by simp [covered01])
      | lf => exact le_trans hle (by simp [covered01])
      | ckcr ck => exact le_trans hle (by simp [covered01])

/-- The uint8 subtraction of 0x20 before the fold implements, on the low
six bits, the mathematical subtraction of one separator byte. -/
theorem fold_sub_sep (s : Nat) (h : 0x20 ≤ s) :
    ((s % 256 + 256 - 0x20) % 256) &&& 0x3f = (s - 0x20) &&& 0x3f := by
  have h1 : s % 256 + 256 - 0x20 = s % 256 + (256 - 0x20) := by omega
  have h2 : (s % 256 + (256 - 0x20)) % 256 = (s + (256 - 0x20)) % 256 := by
    rw [Nat.mod_add_mod]
  have h3 : s + (256 - 0x20) = (s - 0x20) + 256 := by omega
  rw [h1, h2, h3, Nat.add_mod_right, mod256_and_63]

/-! ## The V01 PME-PMI scanner (ticv01pme.l)

Same byte conventions as V01 (SP separator) but the checksum rule is
CTRLTRAIL = SEP CHKSUM CR matched as a single three-byte lexeme: the
trailing separator is consumed inside that lexeme and is therefore never
added to the accumulator, so the rule folds the accumulator directly as
(checksum AND 0x3f) + 0x20 and compares it with the second matched byte
(yytext[1], the checksum byte). -/

inductive LexemePme where
  | stx
  | etx
  | eot
  | lf
  | sep
  | label (bs : List Nat)
  | hdate (bs : List Nat)
  | dat (bs : List Nat)
  | ctrltrail (ck : Nat)
deriving DecidableEq

inductive TokenPme where
  | TOK_STX
  | TOK_ETX
  | TOK_EOT
  | FIELD_START
  | TOK_SEP
  | ET (bs : List Nat)
  | TOK_HDATE (bs : List Nat)
  | TOK_DATA (bs : List Nat)
  | FIELD_OK
  | FIELD_KO
deriving DecidableEq

/-- One scanner step of ticv01pme.l. -/
def ticv01pme_step (checksum : Nat) : LexemePme → Nat × TokenPme
  | .stx => (checksum, .TOK_STX)
  | .etx => (checksum, .TOK_ETX)
  | .eot => (checksum, .TOK_EOT)
  | .lf => (0, .FIELD_START)
  | .sep => ((checksum + 0x20) % 256, .TOK_SEP)
  | .label bs => (crc_calc checksum bs, .ET bs)
  | .hdate bs => (crc_calc checksum bs, .TOK_HDATE bs)
  | .dat bs => (crc_calc checksum bs, .TOK_DATA bs)
  | .ctrltrail ck =>
      ((checksum &&& 0x3f) + 0x20,
       if (checksum &&& 0x3f) + 0x20 = ck then .FIELD_OK else .FIELD_KO)

def ticv01pme_run (checksum : Nat) : List LexemePme → Nat × List TokenPme
  | [] => (checksum, [])
  | l :: ls =>
      let s := ticv01pme_step checksum l
      let r := ticv01pme_run s.1 ls
      (r.1, s.2 :: r.2)

def isMidPme : LexemePme → Bool
  | .sep => true
  | .label _ => true
  | .hdate _ => true
  | .dat _ => true
  | _ => false

def coveredPme : List LexemePme → List Nat
  | [] => []
  | .sep :: ls => 0x20 :: coveredPme ls
  | .label bs :: ls => bs ++ coveredPme ls
  | .hdate bs :: ls => bs ++ coveredPme ls
  | .dat bs :: ls => bs ++ coveredPme ls
  | _ :: ls => coveredPme ls

/-- Scanning one whole PME dataset: LF, body lexemes, then the CTRLTRAIL
lexeme holding the trailing separator, the checksum byte and the CR. -/
def ticv01pme_dataset (cs0 : Nat) (mids : List LexemePme) (ck : Nat) : Option TokenPme :=
  (ticv01pme_run cs0 (LexemePme.lf :: (mids ++ [LexemePme.ctrltrail ck]))).2.getLast?

theorem ticv01pme_run_append (cs : Nat) (as bs : List LexemePme) :
    ticv01pme_run cs (as ++ bs) =
      ((ticv01pme_run (ticv01pme_run cs as).1 bs).1,
       (ticv01pme_run cs as).2 ++ (ticv01pme_run (ticv01pme_run cs as).1 bs).2) := by
  induction as generalizing cs with
  | nil => simp [ticv01pme_run]
  | cons a tl ih => simp [ticv01pme_run, ih]

theorem ticv01pme_run_mid_checksum (cs : Nat) (mids : List LexemePme)
    (h : mids.all isMidPme = true) (hlt : cs < 256) :
    (ticv01pme_run cs mids).1 = (cs + (coveredPme mids).sum) % 256 := by
  induction mids generalizing cs with
  | nil => simp [ticv01pme_run, coveredPme, Nat.mod_eq_of_lt hlt]
  | cons l ls ih =>
    simp only [List.all_cons, Bool.and_eq_true] at h
    cases l with
    | sep =>
      show (ticv01pme_run ((cs + 0x20) % 256) ls).1 = _
      rw [ih _ h.2 (Nat.mod_lt _ (by norm_num))]
      show _ = (cs + (0x20 :: coveredPme ls).sum) % 256
      rw [List.sum_cons, Nat.mod_add_mod, Nat.add_assoc]
    | label bs =>
      show (ticv01pme_run (crc_calc cs bs) ls).1 = _
      rw [ih _ h.2 (crc_calc_lt _ _ hlt), crc_calc_eq_sum _ _ hlt]
      show _ = (cs + (bs ++ coveredPme ls).sum) % 256
      rw [List.sum_append, Nat.mod_add_mod, Nat.add_assoc]
    | hdate bs =>
      show (ticv01pme_run (crc_calc cs bs) ls).1 = _
      rw [ih _ h.2 (crc_calc_lt _ _ hlt), crc_calc_eq_sum _ _ hlt]
      show _ = (cs + (bs ++ coveredPme ls).sum) % 256
      rw [List.sum_append, Nat.mod_add_mod, Nat.add_assoc]
    | dat bs =>
      show (ticv01pme_run (crc_calc cs bs) ls).1 = _
      rw [ih _ h.2 (crc_calc_lt _ _ hlt), crc_calc_eq_sum _ _ hlt]
      show _ = (cs + (bs ++ coveredPme ls).sum) % 256
      rw [List.sum_append, Nat.mod_add_mod, Nat.add_assoc]
    | stx => simp [isMidPme] at h
    | etx => simp [isMidPme] at h
    | eot => simp [isMidPme] at h
    | lf => simp [isMidPme] at h
    | ctrltrail ck => simp [isMidPme] at h

/-- Claim C2: in both V01 and V01PME the trailing separator that precedes the
checksum byte is compensated before the fold.  Writing S for the sum of
all covered bytes of the dataset including that trailing separator, the
dataset is accepted (FIELD_OK) exactly when ((S - 0x20) AND 0x3f) + 0x20
equals the byte before CR.  In V01 the trailing separator reaches the
accumulator through the SEP rule and the checksum rule subtracts 0x20
(uint8) before folding; in V01PME the trailing separator is swallowed by
the CTRLTRAIL lexeme and never accumulated, so the bare fold of the
accumulator realises the same compensated value (there S is the sum of
the accumulated bytes plus the 0x20 of the swallowed separator). -/
theorem trailing_sep_compensation :
    (∀ (cs0 : Nat) (mids : List Lexeme01) (ck : Nat),
       mids.all isMid01 = true → mids.getLast? = some Lexeme01.sep →
       (ticv01_dataset cs0 mids ck = some Token01.FIELD_OK ↔
          (((covered01 mids).sum - 0x20) &&& 0x3f) + 0x20 = ck)) ∧
    (∀ (cs0 : Nat) (mids : List LexemePme) (ck : Nat),
       mids.all isMidPme = true →
       (ticv01pme_dataset cs0 mids ck = some TokenPme.FIELD_OK ↔
          (((coveredPme mids).sum + 0x20 - 0x20) &&& 0x3f) + 0x20 = ck)) := by
  constructor
  · intro cs0 mids ck h hsep
    have hrun : (ticv01_run 0 mids).1 = (covered01 mids).sum % 256 := by
      rw [ticv01_run_mid_checksum 0 mids h (by norm_num), Nat.zero_add]
    have hds : ticv01_dataset cs0 mids ck =
        some (if (((covered01 mids).sum % 256 + 256 - 0x20) % 256 &&& 0x3f) + 0x20 = ck
              then Token01.FIELD_OK else Token01.FIELD_KO) := by
      show (ticv01_run cs0 (Lexeme01.lf :: (mids ++ [Lexeme01.ckcr ck]))).2.getLast? = _
      show (Token01.FIELD_START ::
              (ticv01_run 0 (mids ++ [Lexeme01.ckcr ck])).2).getLast? = _
      rw [ticv01_run_append, hrun]
      show (Token01.FIELD_START ::
              ((ticv01_run 0 mids).2 ++
               [if (((covered01 mids).sum % 256 + 256 - 0x20) % 256 &&& 0x3f) + 0x20 = ck
                then Token01.FIELD_OK else Token01.FIELD_KO])).getLast? = _
      rw [List.getLast?_cons, List.getLast?_concat]
      simp
    rw [hds, fold_sub_sep _ (covered01_sum_ge_sep mids hsep)]
    constructor
    · intro he
      by_contra hne
      rw [if_neg hne] at he
      exact Token01.noConfusion (Option.some.inj he)
    · intro he; rw [if_pos he]
  · intro cs0 mids ck h
    have hrun : (ticv01pme_run 0 mids).1 = (coveredPme mids).sum % 256 := by
      rw [ticv01pme_run_mid_checksum 0 mids h (by norm_num), Nat.zero_add]
    have hds : ticv01pme_dataset cs0 mids ck =
        some (if ((coveredPme mids).sum % 256 &&& 0x3f) + 0x20 = ck
              then TokenPme.FIELD_OK else TokenPme.FIELD_KO) := by
      show (ticv01pme_run cs0 (LexemePme.lf :: (mids ++ [LexemePme.ctrltrail ck]))).2.getLast? = _
      show (TokenPme.FIELD_START ::
              (ticv01pme_run 0 (mids ++ [LexemePme.ctrltrail ck])).2).getLast? = _
      rw [ticv01pme_run_append, hrun]
      show (TokenPme.FIELD_START ::
              ((ticv01pme_run 0 mids).2 ++
               [if ((coveredPme mids).sum % 256 &&& 0x3f) + 0x20 = ck
                then TokenPme.FIELD_OK else TokenPme.FIELD_KO])).getLast? = _
      rw [List.getLast?_cons, List.getLast?_concat]
      simp
    have hs : (coveredPme mids).sum + 0x20 - 0x20 = (coveredPme mids).sum := by omega
    rw [hds, mod256_and_63, hs]
    constructor
    · intro he
      by_contra hne
      rw [if_neg hne] at he
      exact TokenPme.noConfusion (Option.some.inj he)
    · intro he; rw [if_pos he]

/-- Witness for C2: a concrete V01 HCHC dataset (trailing separator and
checksum byte 0x2a) and a concrete PME ADS dataset (checksum byte 0x2e),
both accepted. -/
theorem trailing_sep_compensation_witness :
    ticv01_dataset 0
      [Lexeme01.label [0x48, 0x43, 0x48, 0x43], Lexeme01.sep,
       Lexeme01.dat [0x30, 0x31, 0x32, 0x33, 0x34, 0x35, 0x36, 0x37, 0x38],
       Lexeme01.sep] 0x2a = some Token01.FIELD_OK ∧
    ticv01pme_dataset 0
      [LexemePme.label [0x41, 0x44, 0x53], LexemePme.sep,
       LexemePme.dat [0x31, 0x32, 0x33]] 0x2e = some TokenPme.FIELD_OK :=
  ⟨(trailing_sep_compensation.1 0
      [Lexeme01.label [0x48, 0x43, 0x48, 0x43], Lexeme01.sep,
       Lexeme01.dat [0x30, 0x31, 0x32, 0x33, 0x34, 0x35, 0x36, 0x37, 0x38],
       Lexeme01.sep] 0x2a (by decide) (by decide)).mpr (by decide),
   (trailing_sep_compensation.2 0
      [LexemePme.label [0x41, 0x44, 0x53], LexemePme.sep,
       LexemePme.dat [0x31, 0x32, 0x33]] 0x2e (by decide)).mpr (by decide)⟩

/-! ## Field model (tic.h) and make_field (tic.c)

Transcription of struct tic_etiquette, struct tic_field and
make_field from the revision of tic.c that handles T_IGN and T_PROFILE
and carries the TICV01pme suffix disambiguation (the repository build
defines TICV01pme, so that block is active).  The char pointers of the C
become optional character lists; the anonymous payload union becomes an
optional discriminated value, none meaning the union is left untouched
(the T_IGN case).  The conversion (int)strtol(data, &rem, base) is
modelled by a faithful strtol over unbounded integers followed by the
long-range clamp of strtol and the two-complement truncation of the cast
to a 32-bit int (LP64 target). -/

def T_STRING : Nat := 0x10
def T_HEX : Nat := 0x20
def T_PROFILE : Nat := 0x30
def T_IGN : Nat := 0x40

def U_SANS : Nat := 0x00
def U_KVA : Nat := 0x08
def U_KW : Nat := 0x0A

structure tic_etiquette where
  tok : Nat
  unittype : Nat
  label : String
  desc : String
deriving DecidableEq

inductive FieldData where
  | s (v : Option (List Char))
  | i (v : Int)
deriving DecidableEq

structure tic_field where
  etiq : tic_etiquette
  data : Option FieldData
  horodate : Option (List Char)
deriving DecidableEq

/-- The six characters accepted by isspace in the C locale. -/
def isSpaceC (c : Char) : Bool :=
  c = ' ' || c = '\t' || c = '\n' || c = '\x0b' || c = '\x0c' || c = '\r'

/-- Numeric value of a character as strtol reads it; 99 is a sentinel
larger than every base in use. -/
def digitVal (c : Char) : Nat :=
  if '0' ≤ c ∧ c ≤ '9' then c.toNat - '0'.toNat
  else if 'a' ≤ c ∧ c ≤ 'z' then c.toNat - 'a'.toNat + 10
  else if 'A' ≤ c ∧ c ≤ 'Z' then c.toNat - 'A'.toNat + 10
  else 99

def isDigitB (base : Nat) (c : Char) : Bool :=
  digitVal c < base

/-- Longest run of digits of the given base at the head of the list,
and the remainder. -/
def digitsRun (base : Nat) : List Char → List Char × List Char
  | [] => ([], [])
  | c :: cs =>
      if isDigitB base c then
        let r := digitsRun base cs
        (c :: r.1, r.2)
      else ([], c :: cs)

def natOfDigits (base : Nat) (ds : List Char) : Nat :=
  ds.foldl (fun a c => a * base + digitVal c) 0

structure StrtolOut where
  val : Int
  rem : List Char
deriving DecidableEq

/-- Model of C strtol for the bases 10 and 16 used by the decoder: skip
leading isspace characters, accept one optional sign, accept an optional
0x prefix when the base is 16 and a hex digit follows, convert the
longest digit run; when no digit was converted return 0 with the
remainder pointing at the original start of the string. -/
def strtol_sign : List Char → Bool × List Char
  | '-' :: r => (true, r)
  | '+' :: r => (false, r)
  | s => (false, s)

def strtol_hexpfx (base : Nat) : List Char → List Char
  | c0 :: x :: r =>
      if c0 == '0' && base == 16 && (x == 'x' || x == 'X') &&
         (match r with | c :: _ => isDigitB 16 c | [] => false)
      then r else c0 :: x :: r
  | s => s

def strtol (nptr : List Char) (base : Nat) : StrtolOut :=
  let sg := strtol_sign (nptr.dropWhile isSpaceC)
  let p := digitsRun base (strtol_hexpfx base sg.2)
  if p.1 = [] then ⟨0, nptr⟩
  else ⟨if sg.1 then -(natOfDigits base p.1 : Int) else (natOfDigits base p.1 : Int), p.2⟩

def LONG_MAX : Int := 9223372036854775807

/-- Model of the overflow clamp of strtol: values clamp an out-of-range value to LONG_MAX or LONG_MIN. -/
def clamp_long (z : Int) : Int :=
  if z > LONG_MAX then LONG_MAX
  else if z < -LONG_MAX - 1 then -LONG_MAX - 1
  else z

/-- Conversion of a long to int: two-complement truncation to 32 bits. -/
def int_of_long (z : Int) : Int :=
  let m := z % 4294967296
  if m < 2147483648 then m else m - 4294967296

/-- The integer that make_field stores for an int-typed payload. -/
def strtol_int (data : List Char) (base : Nat) : Int :=
  int_of_long (clamp_long (strtol data base).val)

/-- Model of make_field (tic.c).  The argument data is None when the C
caller passes NULL (horodate-only and ignored datasets). -/
def make_field (etiq : tic_etiquette) (horodate : Option (List Char))
    (data : Option (List Char)) : tic_field :=
  let nib := etiq.unittype &&& 0xF0
  if nib = T_IGN then { etiq := etiq, data := none, horodate := horodate }
  else if nib = T_STRING ∨ nib = T_PROFILE then
    { etiq := etiq, data := some (.s data), horodate := horodate }
  else
    let base := if nib = T_HEX then 16 else 10
    let r := strtol (data.getD []) base
    let v := int_of_long (clamp_long r.val)
    let etiq2 :=
      if etiq.unittype = U_SANS ∧ data.getD [] ≠ [] ∧ r.rem ≠ [] then
        match r.rem.getLast? with
        | some 'A' => { etiq with unittype := U_KVA }
        | some 'W' => { etiq with unittype := U_KW }
        | _ => etiq
      else etiq
    { etiq := etiq2, data := some (.i v), horodate := horodate }

/-! ## Properties of the strtol model -/

theorem digitVal_space (c : Char) (h : isSpaceC c = true) : digitVal c = 99 := by
  simp only [isSpaceC, Bool.or_eq_true, decide_eq_true_eq] at h
  rcases h with ((((h | h) | h) | h) | h) | h <;> subst h <;> decide

theorem strtol_sign_self (s : List Char)
    (h1 : s.head? ≠ some '-') (h2 : s.head? ≠ some '+') :
    strtol_sign s = (false, s) := by
  unfold strtol_sign
  split
  · simp at h1
  · simp at h2
  · rfl

theorem strtol_hexpfx_head_not_digit (base : Nat) (hb : 0 < base) (s : List Char)
    (h : ∀ c, s.head? = some c → isDigitB base c = false) :
    strtol_hexpfx base s = s := by
  match s with
  | [] => rfl
  | [c] => rfl
  | c0 :: x :: r =>
    have hc0 : isDigitB base c0 = false := h c0 rfl
    have hne : (c0 == '0') = false := by
      by_contra hcc
      rw [Bool.not_eq_false, beq_iff_eq] at hcc
      subst hcc
      rw [show isDigitB base '0' = decide (0 < base) from by
            simp [isDigitB, show digitVal '0' = 0 from by decide]] at hc0
      simp [hb] at hc0
    simp [strtol_hexpfx, hne]

theorem strtol_hexpfx_no_x (base : Nat) (s : List Char)
    (h : ∀ x r, s = '0' :: x :: r → x ≠ 'x' ∧ x ≠ 'X') :
    strtol_hexpfx base s = s := by
  match s with
  | [] => rfl
  | [c] => rfl
  | c0 :: x :: r =>
    by_cases hc0 : c0 = '0'
    · subst hc0
      have hx := h x r rfl
      have h1 : (x == 'x') = false := by simp [hx.1]
      have h2 : (x == 'X') = false := by simp [hx.2]
      simp [strtol_hexpfx, h1, h2]
    · have hne : (c0 == '0') = false := by simp [hc0]
      simp [strtol_hexpfx, hne]

theorem digitsRun_none (base : Nat) (s : List Char)
    (h : ∀ c, s.head? = some c → isDigitB base c = false) :
    digitsRun base s = ([], s) := by
  cases s with
  | nil => rfl
  | cons c t => simp [digitsRun, h c rfl]

theorem digitsRun_append (base : Nat) (ds rest : List Char)
    (hds : ds.all (isDigitB base) = true)
    (hr : ∀ c, rest.head? = some c → isDigitB base c = false) :
    digitsRun base (ds ++ rest) = (ds, rest) := by
  induction ds with
  | nil => exact digitsRun_none base rest hr
  | cons d ds ih =>
    simp only [List.all_cons, Bool.and_eq_true] at hds
    simp [digitsRun, hds.1, ih hds.2]

theorem natOfDigits_foldl_lt (base : Nat) (_hb : 1 ≤ base) :
    ∀ (ds : List Char) (acc : Nat), ds.all (isDigitB base) = true →
      ds.foldl (fun a c => a * base + digitVal c) acc < (acc + 1) * base ^ ds.length := by
  intro ds
  induction ds with
  | nil =>
    intro acc _
    have hone : (acc + 1) * base ^ ([] : List Char).length = acc + 1 := by simp
    rw [hone]
    exact Nat.lt_succ_self acc
  | cons c t ih =>
    intro acc h
    simp only [List.all_cons, Bool.and_eq_true] at h
    have hd : digitVal c < base := by simpa [isDigitB] using h.1
    calc (c :: t).foldl (fun a c => a * base + digitVal c) acc
        = t.foldl (fun a c => a * base + digitVal c) (acc * base + digitVal c) := rfl
      _ < (acc * base + digitVal c + 1) * base ^ t.length := ih _ h.2
      _ ≤ ((acc + 1) * base) * base ^ t.length := by
            have : acc * base + digitVal c + 1 ≤ (acc + 1) * base := by
              have := Nat.succ_le_of_lt hd
              calc acc * base + digitVal c + 1 ≤ acc * base + base := by omega
                _ = (acc + 1) * base := by ring
            exact Nat.mul_le_mul_right _ this
      _ = (acc + 1) * base ^ (t.length + 1) := by ring
      _ = (acc + 1) * base ^ (c :: t).length := by simp

theorem natOfDigits_lt (base : Nat) (hb : 1 ≤ base) (ds : List Char)
    (hds : ds.all (isDigitB base) = true) :
    natOfDigits base ds < base ^ ds.length := by
  have h := natOfDigits_foldl_lt base hb ds 0 hds
  rw [Nat.zero_add, Nat.one_mul] at h
  exact h

theorem strtol_no_digits (nptr : List Char) (base : Nat) (hb : 0 < base)
    (h : ∀ c, (strtol_sign (nptr.dropWhile isSpaceC)).2.head? = some c →
           isDigitB base c = false) :
    strtol nptr base = ⟨0, nptr⟩ := by
  have h1 := strtol_hexpfx_head_not_digit base hb _ h
  have h2 := digitsRun_none base _ h
  simp [strtol, h1, h2]

theorem strtol_digits (base : Nat) (hb1 : 0 < base) (hb2 : base ≤ 33)
    (ds rest : List Char) (hne : ds ≠ [])
    (hds : ds.all (isDigitB base) = true)
    (hr : ∀ c, rest.head? = some c →
       isDigitB base c = false ∧ c ≠ 'x' ∧ c ≠ 'X') :
    strtol (ds ++ rest) base = ⟨(natOfDigits base ds : Int), rest⟩ := by
  obtain ⟨d0, ds', rfl⟩ : ∃ d0 ds', ds = d0 :: ds' := by
    cases ds with
    | nil => exact absurd rfl hne
    | cons a b => exact ⟨a, b, rfl⟩
  have hd0 : isDigitB base d0 = true := by
    simp only [List.all_cons, Bool.and_eq_true] at hds
    exact hds.1
  have hd0v : digitVal d0 < base := by simpa [isDigitB] using hd0
  have hnotsp : isSpaceC d0 = false := by
    by_contra hsp
    rw [Bool.not_eq_false] at hsp
    rw [digitVal_space d0 hsp] at hd0v
    omega
  have hdrop : ((d0 :: ds') ++ rest).dropWhile isSpaceC = (d0 :: ds') ++ rest := by
    simp [List.dropWhile_cons, hnotsp]
  have hne_dash : d0 ≠ '-' := by
    intro hh; subst hh
    rw [show digitVal '-' = 99 from by decide] at hd0v; omega
  have hne_plus : d0 ≠ '+' := by
    intro hh; subst hh
    rw [show digitVal '+' = 99 from by decide] at hd0v; omega
  have hsg : strtol_sign ((d0 :: ds') ++ rest) = (false, (d0 :: ds') ++ rest) := by
    apply strtol_sign_self <;> simp [hne_dash, hne_plus]
  have hx : ∀ x r, (d0 :: ds') ++ rest = '0' :: x :: r → x ≠ 'x' ∧ x ≠ 'X' := by
    intro x r heq
    cases ds' with
    | nil =>
      simp only [List.cons_append, List.nil_append, List.cons.injEq] at heq
      rcases heq with ⟨_, heq2⟩
      have hhd : rest.head? = some x := by rw [heq2]; rfl
      exact (hr x hhd).2
    | cons d1 ds'' =>
      simp only [List.cons_append, List.cons.injEq] at heq
      rcases heq with ⟨_, hd1x, _⟩
      have hd1 : isDigitB base d1 = true := by
        simp only [List.all_cons, Bool.and_eq_true] at hds
        exact hds.2.1
      have hd1v : digitVal d1 < base := by simpa [isDigitB] using hd1
      subst hd1x
      constructor
      · intro hh; subst hh
        rw [show digitVal 'x' = 33 from by decide] at hd1v; omega
      · intro hh; subst hh
        rw [show digitVal 'X' = 33 from by decide] at hd1v; omega
  have hrun := digitsRun_append base (d0 :: ds') rest hds (fun c hc => (hr c hc).1)
  have hpfx := strtol_hexpfx_no_x base _ hx
  simp only [strtol, hdrop, hsg, hpfx, hrun]
  simp

theorem int_of_long_clamp_small (v : Int) (h0 : 0 ≤ v) (h1 : v < 2147483648) :
    int_of_long (clamp_long v) = v := by
  have hc : clamp_long v = v := by
    unfold clamp_long LONG_MAX
    rw [if_neg (by omega), if_neg (by omega)]
  rw [hc]
  unfold int_of_long
  rw [Int.emod_eq_of_lt h0 (by omega), if_pos h1]

/-! ## C5 and C10: payload typing and totality of make_field -/

/-- Counterexample for C5: for an etiquette whose type nibble is T_PROFILE
(0x30, neither T_STRING nor T_IGN), the claim as stated predicts an
integer payload parsed in base 10 from the data bytes; make_field
instead transfers the bytes into the string member of the union. -/
theorem make_field_profile_counterexample :
    (make_field ⟨7, 0x30, "PJOURF+1", ""⟩ none (some ['1', '2', '3'])).data
        = some (FieldData.s (some ['1', '2', '3'])) ∧
    some (FieldData.s (some ['1', '2', '3'])) ≠
      some (FieldData.i (strtol_int ['1', '2', '3'] 10)) := by
  exact ⟨by decide, by decide⟩

/-- Amended C5: a payload is stored as a string when the type nibble is
T_STRING or T_PROFILE, no payload is stored at all for T_IGN, and for
every other type nibble the payload is the integer obtained by strtol
on the data bytes, base 16 for T_HEX and base 10 otherwise. -/
theorem make_field_payload_typing (etiq : tic_etiquette)
    (horodate data0 : Option (List Char)) :
    ((etiq.unittype &&& 0xF0 = T_STRING ∨ etiq.unittype &&& 0xF0 = T_PROFILE) →
       (make_field etiq horodate data0).data = some (FieldData.s data0)) ∧
    (etiq.unittype &&& 0xF0 = T_IGN →
       (make_field etiq horodate data0).data = none) ∧
    (etiq.unittype &&& 0xF0 ≠ T_STRING → etiq.unittype &&& 0xF0 ≠ T_PROFILE →
     etiq.unittype &&& 0xF0 ≠ T_IGN →
       (make_field etiq horodate data0).data =
         some (FieldData.i (strtol_int (data0.getD [])
           (if etiq.unittype &&& 0xF0 = T_HEX then 16 else 10)))) := by
  refine ⟨?_, ?_, ?_⟩
  · intro h
    have hnig : ¬ etiq.unittype &&& 0xF0 = T_IGN := by
      rcases h with h | h <;> rw [h] <;> decide
    simp only [make_field, if_neg hnig, if_pos h]
  · intro h
    simp only [make_field, if_pos h]
  · intro h1 h2 h3
    simp only [make_field, if_neg h3, if_neg (not_or.mpr ⟨h1, h2⟩), strtol_int]

/-- Witness for the amended C5: one string-typed, one ignored and one
hex-typed concrete field. -/
theorem make_field_payload_typing_witness :
    (make_field ⟨0, 0x10, "ADCO", ""⟩ none (some ['0', '1'])).data
        = some (FieldData.s (some ['0', '1'])) ∧
    (make_field ⟨1, 0x40, "TGPHI", ""⟩ none none).data = none ∧
    (make_field ⟨2, 0x20, "STGE", ""⟩ none (some ['1', 'A'])).data
        = some (FieldData.i 26) :=
  ⟨(make_field_payload_typing ⟨0, 0x10, "ADCO", ""⟩ none (some ['0', '1'])).1
      (Or.inl (by decide)),
   (make_field_payload_typing ⟨1, 0x40, "TGPHI", ""⟩ none none).2.1 (by decide),
   ((make_field_payload_typing ⟨2, 0x20, "STGE", ""⟩ none (some ['1', 'A'])).2.2
      (by decide) (by decide) (by decide)).trans (by decide)⟩

/-- Counterexample for C10: the payload "+5" has no leading digit, yet
make_field stores the integer 5 (strtol accepts an optional sign), not
the 0 the claim as stated predicts. -/
theorem make_field_no_leading_digit_counterexample :
    (make_field ⟨2, 0x00, "PS", ""⟩ none (some ['+', '5'])).data
        = some (FieldData.i 5) ∧ ¬ ((5 : Int) = 0) := by
  exact ⟨by decide, by decide⟩

/-- Amended C10: make_field is total on int-typed payloads.  For every
etiquette whose type nibble is neither T_STRING, T_PROFILE nor T_IGN,
the field is always produced, its payload the strtol conversion of the
data bytes (base 16 for T_HEX, base 10 otherwise); a payload in which
strtol finds no digit after the optional leading whitespace and sign
yields the integer 0; and a payload that starts with a nonempty digit
run followed by a non-digit remainder (not an 0x hex prefix) yields the
value of that longest numeric prefix whenever it fits in a 32-bit int. -/
theorem make_field_int_total (etiq : tic_etiquette) (horodate : Option (List Char))
    (data : List Char)
    (h1 : etiq.unittype &&& 0xF0 ≠ T_STRING)
    (h2 : etiq.unittype &&& 0xF0 ≠ T_PROFILE)
    (h3 : etiq.unittype &&& 0xF0 ≠ T_IGN) :
    ((make_field etiq horodate (some data)).data =
       some (FieldData.i (strtol_int data
         (if etiq.unittype &&& 0xF0 = T_HEX then 16 else 10)))) ∧
    ((∀ c, (strtol_sign (data.dropWhile isSpaceC)).2.head? = some c →
         isDigitB (if etiq.unittype &&& 0xF0 = T_HEX then 16 else 10) c = false) →
       strtol_int data (if etiq.unittype &&& 0xF0 = T_HEX then 16 else 10) = 0) ∧
    (∀ ds rest, data = ds ++ rest → ds ≠ [] →
       ds.all (isDigitB (if etiq.unittype &&& 0xF0 = T_HEX then 16 else 10)) = true →
       (∀ c, rest.head? = some c →
          isDigitB (if etiq.unittype &&& 0xF0 = T_HEX then 16 else 10) c = false ∧
          c ≠ 'x' ∧ c ≠ 'X') →
       natOfDigits (if etiq.unittype &&& 0xF0 = T_HEX then 16 else 10) ds < 2147483648 →
       strtol_int data (if etiq.unittype &&& 0xF0 = T_HEX then 16 else 10) =
         (natOfDigits (if etiq.unittype &&& 0xF0 = T_HEX then 16 else 10) ds : Int)) := by
  have hb1 : 0 < (if etiq.unittype &&& 0xF0 = T_HEX then 16 else 10) := by
    split <;> norm_num
  have hb2 : (if etiq.unittype &&& 0xF0 = T_HEX then 16 else 10) ≤ 33 := by
    split <;> norm_num
  refine ⟨?_, ?_, ?_⟩
  · simp only [make_field, if_neg h3, if_neg (not_or.mpr ⟨h1, h2⟩), strtol_int,
      Option.getD_some]
  · intro h
    rw [strtol_int, strtol_no_digits data _ hb1 h]
    show int_of_long (clamp_long 0) = 0
    decide
  · intro ds rest hdata hne hds hr hbound
    subst hdata
    rw [strtol_int, strtol_digits _ hb1 hb2 ds rest hne hds hr]
    show int_of_long (clamp_long
      ((natOfDigits (if etiq.unittype &&& 0xF0 = T_HEX then 16 else 10) ds : Nat) : Int)) = _
    exact int_of_long_clamp_small _ (Int.ofNat_nonneg _) (by exact_mod_cast hbound)

/-- Witness for the amended C10: the PME-style payload "36 kW" parses
to 36 through its longest numeric prefix, and a digitless payload "z"
parses to 0. -/
theorem make_field_int_total_witness :
    (make_field ⟨2, 0x00, "PAX", ""⟩ none
        (some ['3', '6', ' ', 'k', 'W'])).data = some (FieldData.i 36) ∧
    strtol_int ['z'] 10 = 0 :=
  ⟨((make_field_int_total ⟨2, 0x00, "PAX", ""⟩ none ['3', '6', ' ', 'k', 'W']
      (by decide) (by decide) (by decide)).1).trans (by decide),
   ((make_field_int_total ⟨2, 0x00, "PAX", ""⟩ none ['z']
      (by decide) (by decide) (by decide)).2.1 (by decide)).trans (by decide)⟩

/-! ## The output sink and the grammar driver (tic2json.c and the .y actions)

The global struct tp of tic2json.c is modelled with the members the
frame logic reads: skipframes and framecount (the -s option machinery),
the frame error flag ferr, the option flags the print_field filter uses,
and the etiq_en filter array (a function when loaded, none otherwise).
Outputs are modelled as an event trace: one printCall event per
print_field invocation, carrying whether the filter let the field
through, one tvalide event per dictionary-mode frame status, and
frameEnd/frameBegin for the frame delimiters printed by frame_sep.

The grammar actions of the three .y files share one skeleton; a frame is
a list of dataset reductions followed by one terminating production:
 - dsOk: FIELD_START field FIELD_OK   -> print_field, free_field
 - dsBadCrc: FIELD_START field FIELD_KO -> frame_err
 - dsUnrec: FIELD_START error FIELD_OK  -> explicitly not a frame error
 - dsErr: the datasets: error production -> frame_err
 - terminators: ETX -> frame_sep; EOT (V01/V01PME) -> frame_err then
   frame_sep; the error-recovery frame productions -> frame_err then
   frame_sep. -/

structure TP where
  skipframes : Nat
  framecount : Nat
  ferr : Bool
  dictout : Bool
  maskzeroes : Bool
  etiq_en : Option (Nat → Bool)

inductive Out where
  | printCall (fld : tic_field) (emitted : Bool)
  | tvalide (b : Bool)
  | frameEnd
  | frameBegin
deriving DecidableEq

/-- The filter at the top of print_field: the field is skipped when a
frame skip is in progress, when the field type is T_IGN, when zero
masking applies to a zero int, or when the etiquette filter array is
loaded and disables the token. -/
def print_field_gate (tp : TP) (fld : tic_field) : Bool :=
  !(decide (tp.framecount ≠ 0) ||
    decide (fld.etiq.unittype &&& 0xF0 = T_IGN) ||
    (tp.maskzeroes && !(decide (fld.etiq.unittype &&& T_STRING ≠ 0)) &&
      (match fld.data with | some (FieldData.i v) => decide (v = 0) | _ => false)) ||
    (match tp.etiq_en with | some en => !(en fld.etiq.tok) | none => false))

/-- Model of frame_sep of tic2json.c: when the frame counter is zero, print the
dictionary-mode frame status (the negation of the error flag), the
closing and the next opening delimiter, and reload the counter from
skipframes; otherwise just decrement the counter.  In both cases the
error flag is cleared. -/
def frame_sep (tp : TP) : TP × List Out :=
  if tp.framecount = 0 then
    ({ tp with framecount := tp.skipframes, ferr := false },
     (if tp.dictout then [Out.tvalide (!tp.ferr)] else []) ++
       [Out.frameEnd, Out.frameBegin])
  else
    ({ tp with framecount := tp.framecount - 1, ferr := false }, [])

/-- Model of frame_err of tic2json.c. -/
def frame_err (tp : TP) : TP :=
  { tp with ferr := true }

inductive DatasetEvt where
  | dsOk (fld : tic_field)
  | dsBadCrc
  | dsUnrec
  | dsErr
deriving DecidableEq

inductive FrameEnding where
  | etx
  | eot
  | errEtx
  | errEot
deriving DecidableEq

structure Frame where
  ds : List DatasetEvt
  ending : FrameEnding
deriving DecidableEq

/-- Action fired by one dataset reduction of the grammar. -/
def dataset_action (tp : TP) : DatasetEvt → TP × List Out
  | .dsOk fld => (tp, [Out.printCall fld (print_field_gate tp fld)])
  | .dsBadCrc => (frame_err tp, [])
  | .dsUnrec => (tp, [])
  | .dsErr => (frame_err tp, [])

def run_datasets (tp : TP) : List DatasetEvt → TP × List Out
  | [] => (tp, [])
  | e :: es =>
      let s := dataset_action tp e
      let r := run_datasets s.1 es
      (r.1, s.2 ++ r.2)

/-- Action fired by the terminating production of a frame. -/
def frame_end_action (tp : TP) : FrameEnding → TP × List Out
  | .etx => frame_sep tp
  | .eot => frame_sep (frame_err tp)
  | .errEtx => frame_sep (frame_err tp)
  | .errEot => frame_sep (frame_err tp)

def run_frame (tp : TP) (f : Frame) : TP × List Out :=
  let r := run_datasets tp f.ds
  let e := frame_end_action r.1 f.ending
  (e.1, r.2 ++ e.2)

def run_frames (tp : TP) : List Frame → TP × List Out
  | [] => (tp, [])
  | f :: fs =>
      let r := run_frame tp f
      let rest := run_frames r.1 fs
      (rest.1, r.2 ++ rest.2)

/-- The dataset events that set the frame error flag. -/
def isErrEvt : DatasetEvt → Bool
  | .dsBadCrc => true
  | .dsErr => true
  | _ => false

theorem run_datasets_state (tp : TP) (es : List DatasetEvt) :
    (run_datasets tp es).1 = { tp with ferr := tp.ferr || es.any isErrEvt } := by
  induction es generalizing tp with
  | nil => simp [run_datasets]
  | cons e es ih =>
    cases e with
    | dsOk fld =>
      show (run_datasets tp es).1 = _
      rw [ih]
      simp [isErrEvt, List.any_cons]
    | dsBadCrc =>
      show (run_datasets (frame_err tp) es).1 = _
      rw [ih]
      simp [frame_err, isErrEvt, List.any_cons]
    | dsUnrec =>
      show (run_datasets tp es).1 = _
      rw [ih]
      simp [isErrEvt, List.any_cons]
    | dsErr =>
      show (run_datasets (frame_err tp) es).1 = _
      rw [ih]
      simp [frame_err, isErrEvt, List.any_cons]

theorem run_datasets_append (tp : TP) (as bs : List DatasetEvt) :
    run_datasets tp (as ++ bs) =
      ((run_datasets (run_datasets tp as).1 bs).1,
       (run_datasets tp as).2 ++ (run_datasets (run_datasets tp as).1 bs).2) := by
  induction as generalizing tp with
  | nil => simp [run_datasets]
  | cons a tl ih => simp [run_datasets, ih]

/-- A frame is clean when no dataset failed its checksum, no dataset
error production fired, and the frame terminated with ETX. -/
def frame_clean (f : Frame) : Bool :=
  f.ds.all (fun e => !(isErrEvt e)) && (f.ending == FrameEnding.etx)

theorem all_not_eq_not_any (es : List DatasetEvt) :
    es.all (fun e => !(isErrEvt e)) = !(es.any isErrEvt) := by
  induction es with
  | nil => rfl
  | cons e es ih => simp [List.all_cons, List.any_cons, ih]

/-- Claim C3: when a frame is actually emitted (no frame skip in progress) in
dictionary output mode and the error flag was cleared beforehand, the
trace of the frame ends with the tvalide status, which is 1 exactly when
every dataset passed its checksum (no FIELD_KO reduction), no dataset
error production fired inside the frame, and the frame terminated with
ETX; it is 0 whenever a FIELD_KO or a dataset error occurred or the
frame terminated with EOT or through error recovery.  The error flag is
cleared again after every frame.  Note the reduction
FIELD_START error FIELD_OK (dsUnrec) is, as the grammar comment states,
deliberately not a frame error and does not affect the status. -/
theorem dict_tvalide_correct (tp : TP) (f : Frame)
    (h1 : tp.ferr = false) (h2 : tp.dictout = true) (h3 : tp.framecount = 0) :
    (run_frame tp f).2 =
      (run_datasets tp f.ds).2 ++
        [Out.tvalide (frame_clean f), Out.frameEnd, Out.frameBegin] ∧
    (run_frame tp f).1.ferr = false := by
  obtain ⟨ds, ending⟩ := f
  have hst : (run_datasets tp ds).1 = { tp with ferr := tp.ferr || ds.any isErrEvt } :=
    run_datasets_state tp ds
  have hfc : (run_datasets tp ds).1.framecount = 0 := by rw [hst]; exact h3
  have hdict : (run_datasets tp ds).1.dictout = true := by rw [hst]; exact h2
  have hferr : (run_datasets tp ds).1.ferr = ds.any isErrEvt := by
    rw [hst, h1]; simp
  cases ending with
  | etx =>
    constructor
    · show (run_datasets tp ds).2 ++ (frame_sep (run_datasets tp ds).1).2 = _
      rw [frame_sep, if_pos hfc]
      simp only [hdict, if_pos, hferr]
      have : frame_clean ⟨ds, FrameEnding.etx⟩ = !(ds.any isErrEvt) := by
        simp [frame_clean, all_not_eq_not_any]
      rw [this]
      simp
    · show (frame_sep (run_datasets tp ds).1).1.ferr = false
      rw [frame_sep, if_pos hfc]
  | eot =>
    have hfc2 : (frame_err (run_datasets tp ds).1).framecount = 0 := hfc
    have hdict2 : (frame_err (run_datasets tp ds).1).dictout = true := hdict
    constructor
    · show (run_datasets tp ds).2 ++ (frame_sep (frame_err (run_datasets tp ds).1)).2 = _
      rw [frame_sep, if_pos hfc2]
      simp only [hdict2, if_pos]
      have : frame_clean ⟨ds, FrameEnding.eot⟩ = false := by simp [frame_clean]
      rw [this]
      simp [frame_err]
    · show (frame_sep (frame_err (run_datasets tp ds).1)).1.ferr = false
      rw [frame_sep, if_pos hfc2]
  | errEtx =>
    have hfc2 : (frame_err (run_datasets tp ds).1).framecount = 0 := hfc
    have hdict2 : (frame_err (run_datasets tp ds).1).dictout = true := hdict
    constructor
    · show (run_datasets tp ds).2 ++ (frame_sep (frame_err (run_datasets tp ds).1)).2 = _
      rw [frame_sep, if_pos hfc2]
      simp only [hdict2, if_pos]
      have : frame_clean ⟨ds, FrameEnding.errEtx⟩ = false := by simp [frame_clean]
      rw [this]
      simp [frame_err]
    · show (frame_sep (frame_err (run_datasets tp ds).1)).1.ferr = false
      rw [frame_sep, if_pos hfc2]
  | errEot =>
    have hfc2 : (frame_err (run_datasets tp ds).1).framecount = 0 := hfc
    have hdict2 : (frame_err (run_datasets tp ds).1).dictout = true := hdict
    constructor
    · show (run_datasets tp ds).2 ++ (frame_sep (frame_err (run_datasets tp ds).1)).2 = _
      rw [frame_sep, if_pos hfc2]
      simp only [hdict2, if_pos]
      have : frame_clean ⟨ds, FrameEnding.errEot⟩ = false := by simp [frame_clean]
      rw [this]
      simp [frame_err]
    · show (frame_sep (frame_err (run_datasets tp ds).1)).1.ferr = false
      rw [frame_sep, if_pos hfc2]

/-- Witness for C3: a clean single-dataset dictionary-mode frame reports
tvalide 1 and clears the flag. -/
theorem dict_tvalide_correct_witness :
    (run_frame ⟨0, 0, false, true, false, none⟩
       ⟨[DatasetEvt.dsOk ⟨⟨1, 0x00, "BASE", ""⟩, some (FieldData.i 1), none⟩],
        FrameEnding.etx⟩).2 =
      [Out.printCall ⟨⟨1, 0x00, "BASE", ""⟩, some (FieldData.i 1), none⟩ true,
       Out.tvalide true, Out.frameEnd, Out.frameBegin] ∧
    (run_frame ⟨0, 0, false, true, false, none⟩
       ⟨[DatasetEvt.dsOk ⟨⟨1, 0x00, "BASE", ""⟩, some (FieldData.i 1), none⟩],
        FrameEnding.etx⟩).1.ferr = false :=
  ⟨((dict_tvalide_correct ⟨0, 0, false, true, false, none⟩
      ⟨[DatasetEvt.dsOk ⟨⟨1, 0x00, "BASE", ""⟩, some (FieldData.i 1), none⟩],
       FrameEnding.etx⟩ rfl rfl rfl).1).trans (by decide),
   (dict_tvalide_correct ⟨0, 0, false, true, false, none⟩
      ⟨[DatasetEvt.dsOk ⟨⟨1, 0x00, "BASE", ""⟩, some (FieldData.i 1), none⟩],
       FrameEnding.etx⟩ rfl rfl rfl).2⟩

/-- Claim C4: a dataset that passes its checksum is handed to print_field at
the moment its FIELD_OK token is reduced: in the trace of any frame the
print call appears immediately after the outputs of the preceding
datasets, and both its position and its filter outcome are computed from
the state reached after those preceding datasets only, whatever follows
in the frame (later malformed datasets, EOT, or an error terminator
cannot retract or alter it). -/
theorem print_field_eager (tp : TP) (pre : List DatasetEvt) (fld : tic_field)
    (rest : List DatasetEvt) (e : FrameEnding) :
    (run_frame tp ⟨pre ++ DatasetEvt.dsOk fld :: rest, e⟩).2 =
      (run_datasets tp pre).2 ++
        Out.printCall fld (print_field_gate (run_datasets tp pre).1 fld) ::
          (run_frame (run_datasets tp pre).1 ⟨rest, e⟩).2 := by
  unfold run_frame
  rw [run_datasets_append]
  show ((run_datasets tp pre).2 ++ (run_datasets (run_datasets tp pre).1
          (DatasetEvt.dsOk fld :: rest)).2) ++ _ = _
  show ((run_datasets tp pre).2 ++
          ([Out.printCall fld (print_field_gate (run_datasets tp pre).1 fld)] ++
           (run_datasets (run_datasets tp pre).1 rest).2)) ++ _ = _
  simp [List.append_assoc, run_datasets, dataset_action]

/-! ## C9: the -s N frame-skip machinery

frame_sep runs the counter through: if (!tp.framecount--) then
framecount := skipframes (and the frame is emitted), else the counter
just went down by one and nothing is printed.  That counter evolution is
the function tick below. -/

def tick (N fc : Nat) : Nat := if fc = 0 then N else fc - 1

def fcIter (N fc : Nat) : Nat → Nat
  | 0 => fc
  | n + 1 => fcIter N (tick N fc) n

def fcSeq (N : Nat) : Nat → Nat
  | 0 => 0
  | i + 1 => tick N (fcSeq N i)

theorem run_frame_counter (tp : TP) (f : Frame) :
    (run_frame tp f).1.framecount = tick tp.skipframes tp.framecount ∧
    (run_frame tp f).1.skipframes = tp.skipframes := by
  obtain ⟨ds, ending⟩ := f
  have hst := run_datasets_state tp ds
  have h1 : (run_frame tp ⟨ds, ending⟩).1 =
      (frame_end_action (run_datasets tp ds).1 ending).1 := rfl
  rw [h1, hst]
  cases ending <;>
    simp only [frame_end_action, frame_sep, frame_err, tick] <;>
    split <;> simp_all

theorem run_frames_counter (tp : TP) (fs : List Frame) :
    (run_frames tp fs).1.framecount = fcIter tp.skipframes tp.framecount fs.length ∧
    (run_frames tp fs).1.skipframes = tp.skipframes := by
  induction fs generalizing tp with
  | nil => exact ⟨rfl, rfl⟩
  | cons f fs ih =>
    have h1 := run_frame_counter tp f
    have h2 := ih (run_frame tp f).1
    show ((run_frames (run_frame tp f).1 fs).1.framecount = _ ∧
          (run_frames (run_frame tp f).1 fs).1.skipframes = _)
    rw [h2.1, h2.2, h1.1, h1.2]
    exact ⟨rfl, rfl⟩

theorem fcIter_succ (N fc n : Nat) :
    fcIter N fc (n + 1) = tick N (fcIter N fc n) := by
  induction n generalizing fc with
  | zero => rfl
  | succ n ih =>
    show fcIter N (tick N fc) (n + 1) = _
    rw [ih (tick N fc)]
    rfl

theorem fcIter_zero_eq_fcSeq (N n : Nat) : fcIter N 0 n = fcSeq N n := by
  induction n with
  | zero => rfl
  | succ n ih => rw [fcIter_succ, ih]; rfl

theorem fcSeq_closed (N i : Nat) : fcSeq N i = N - ((i + N) % (N + 1)) := by
  induction i with
  | zero =>
    rw [show fcSeq N 0 = 0 from rfl, Nat.zero_add, Nat.mod_eq_of_lt (by omega)]
    omega
  | succ i ih =>
    show tick N (fcSeq N i) = N - ((i + 1 + N) % (N + 1))
    rw [ih]
    have hr : (i + N) % (N + 1) < N + 1 := Nat.mod_lt _ (by omega)
    have hdiv := Nat.mod_add_div (i + N) (N + 1)
    have hsucc : i + 1 + N = ((i + N) % (N + 1) + 1) + (N + 1) * ((i + N) / (N + 1)) := by
      omega
    rw [hsucc, Nat.add_mul_mod_self_left]
    by_cases he : (i + N) % (N + 1) = N
    · rw [he, Nat.mod_self]
      simp [tick, he]
    · have hlt : (i + N) % (N + 1) + 1 < N + 1 := by omega
      rw [Nat.mod_eq_of_lt hlt]
      have hpos : N - (i + N) % (N + 1) ≠ 0 := by omega
      simp only [tick, if_neg hpos]
      omega

theorem fcSeq_zero_iff (N i : Nat) : fcSeq N i = 0 ↔ i % (N + 1) = 0 := by
  rw [fcSeq_closed]
  have hr : (i + N) % (N + 1) < N + 1 := Nat.mod_lt _ (by omega)
  constructor
  · intro h
    have hrN : (i + N) % (N + 1) = N := by omega
    have hdiv := Nat.mod_add_div (i + N) (N + 1)
    have hi : i = (N + 1) * ((i + N) / (N + 1)) := by omega
    rw [hi, Nat.mul_mod_right]
  · intro h
    have hdiv := Nat.mod_add_div i (N + 1)
    have hi : i + N = N + (N + 1) * (i / (N + 1)) := by omega
    rw [hi, Nat.add_mul_mod_self_left, Nat.mod_eq_of_lt (by omega)]
    omega

theorem run_datasets_no_frameEnd (tp : TP) (es : List DatasetEvt) :
    Out.frameEnd ∉ (run_datasets tp es).2 := by
  induction es generalizing tp with
  | nil => simp [run_datasets]
  | cons e es ih =>
    cases e <;> simp [run_datasets, dataset_action] <;> exact ih _

theorem run_datasets_gate_off (tp : TP) (es : List DatasetEvt)
    (h : tp.framecount ≠ 0) :
    ∀ fld b, Out.printCall fld b ∈ (run_datasets tp es).2 → b = false := by
  induction es generalizing tp with
  | nil => simp [run_datasets]
  | cons e es ih =>
    intro fld b hmem
    cases e with
    | dsOk f2 =>
      simp only [run_datasets, dataset_action, List.cons_append, List.nil_append,
        List.mem_cons] at hmem
      rcases hmem with hmem | hmem
      · have hg : print_field_gate tp f2 = false := by
          simp [print_field_gate, h]
        rw [Out.printCall.injEq] at hmem
        rw [hmem.2, hg]
      · exact ih tp h fld b hmem
    | dsBadCrc =>
      simp only [run_datasets, dataset_action, List.nil_append] at hmem
      exact ih (frame_err tp) h fld b hmem
    | dsUnrec =>
      simp only [run_datasets, dataset_action, List.nil_append] at hmem
      exact ih tp h fld b hmem
    | dsErr =>
      simp only [run_datasets, dataset_action, List.nil_append] at hmem
      exact ih (frame_err tp) h fld b hmem

def c9_field : tic_field := ⟨⟨1, 0x00, "BASE", ""⟩, some (FieldData.i 1), none⟩

def c9_tp : TP := ⟨1, 0, false, false, false, none⟩

def c9_frame : Frame := ⟨[DatasetEvt.dsOk c9_field], FrameEnding.etx⟩

/-- Counterexample for C9: with -s 1 the claim says every frame is emitted
(one out of every 1 consecutive frames).  Feeding two clean one-dataset
frames from the start state (skipframes 1, framecount 0), the trace
shows the field of the second frame suppressed and only one frame
delimiter produced: the code emits one frame out of every N+1, not out
of every N. -/
theorem skipframes_counterexample :
    (run_frames c9_tp [c9_frame, c9_frame]).2 =
      [Out.printCall c9_field true, Out.frameEnd, Out.frameBegin,
       Out.printCall c9_field false] ∧
    (run_frames c9_tp [c9_frame, c9_frame]).2.count Out.frameEnd = 1 ∧
    (1 : Nat) ≠ 2 := by
  exact ⟨by decide, by decide, by decide⟩

/-- Amended C9: with -s N, out of every N + 1 consecutive frames exactly
one is emitted.  Starting from the initial state (framecount 0), the
frame counter observed at the start of the i-th frame (0-based, after
any prefix pre of i frames) is zero exactly when i is a multiple of
N + 1; a frame processed with a nonzero counter produces no frame
delimiter and every print_field call in it is filtered out, while a
frame processed with a zero counter produces exactly one closing frame
delimiter. -/
theorem skipframes_period (N : Nat) (tp : TP) (pre : List Frame)
    (h1 : tp.skipframes = N) (h2 : tp.framecount = 0) :
    ((run_frames tp pre).1.framecount = 0 ↔ pre.length % (N + 1) = 0) ∧
    (∀ (tp2 : TP) (f : Frame), tp2.framecount ≠ 0 →
       ((run_frame tp2 f).2.count Out.frameEnd = 0 ∧
        ∀ fld b, Out.printCall fld b ∈ (run_frame tp2 f).2 → b = false)) ∧
    (∀ (tp2 : TP) (f : Frame), tp2.framecount = 0 →
       (run_frame tp2 f).2.count Out.frameEnd = 1) := by
  refine ⟨?_, ?_, ?_⟩
  · have hc := (run_frames_counter tp pre).1
    rw [h1, h2] at hc
    rw [hc, fcIter_zero_eq_fcSeq]
    exact fcSeq_zero_iff N pre.length
  · intro tp2 f hfc
    obtain ⟨ds, ending⟩ := f
    have hst := run_datasets_state tp2 ds
    have hfc2 : (run_datasets tp2 ds).1.framecount ≠ 0 := by rw [hst]; exact hfc
    have hend : (frame_end_action (run_datasets tp2 ds).1 ending).2 = [] := by
      cases ending <;>
        simp only [frame_end_action, frame_sep, frame_err] <;>
        rw [if_neg hfc2]
    constructor
    · show ((run_datasets tp2 ds).2 ++
          (frame_end_action (run_datasets tp2 ds).1 ending).2).count Out.frameEnd = 0
      rw [hend, List.append_nil, List.count_eq_zero]
      exact run_datasets_no_frameEnd tp2 ds
    · intro fld b hmem
      show b = false
      rw [show (run_frame tp2 ⟨ds, ending⟩).2 =
            (run_datasets tp2 ds).2 ++
              (frame_end_action (run_datasets tp2 ds).1 ending).2 from rfl,
          hend, List.append_nil] at hmem
      exact run_datasets_gate_off tp2 ds hfc fld b hmem
  · intro tp2 f hfc
    obtain ⟨ds, ending⟩ := f
    have hst := run_datasets_state tp2 ds
    have hfc2 : (run_datasets tp2 ds).1.framecount = 0 := by rw [hst]; exact hfc
    have hend : (frame_end_action (run_datasets tp2 ds).1 ending).2.count Out.frameEnd = 1 := by
      cases ending <;>
        simp only [frame_end_action, frame_sep, frame_err] <;>
        rw [if_pos hfc2] <;>
        by_cases hd : (run_datasets tp2 ds).1.dictout = true <;>
        simp [hd]
    show ((run_datasets tp2 ds).2 ++
        (frame_end_action (run_datasets tp2 ds).1 ending).2).count Out.frameEnd = 1
    rw [List.count_append, hend,
        List.count_eq_zero.mpr (run_datasets_no_frameEnd tp2 ds)]

/-- Witness for the amended C9 at N = 1: after two frames the counter is
back to zero; a frame with a pending skip emits nothing; a frame with a
zero counter emits its delimiter. -/
theorem skipframes_period_witness :
    (run_frames c9_tp [c9_frame, c9_frame]).1.framecount = 0 ∧
    (run_frame ⟨1, 1, false, false, false, none⟩ c9_frame).2.count Out.frameEnd = 0 ∧
    (run_frame c9_tp c9_frame).2.count Out.frameEnd = 1 :=
  ⟨(skipframes_period 1 c9_tp [c9_frame, c9_frame] rfl rfl).1.mpr (by decide),
   ((skipframes_period 1 c9_tp [] rfl rfl).2.1
      ⟨1, 1, false, false, false, none⟩ c9_frame (by decide)).1,
   (skipframes_period 1 c9_tp [] rfl rfl).2.2 c9_tp c9_frame rfl⟩

/-! ## The STGE status-register decoder (print_stge_data, tic2json.c)

print_stge_data prints eighteen keys, each derived from the 32-bit
payload d by one shift-and-mask extraction, in source order:

 1. d AND 0x01                    (contact sec)
 2. (d >> 1) AND 0x07             (organe de coupure)
 3. (d >> 4) AND 0x01             (cache-bornes)
 4. (d >> 6) AND 0x01             (surtension)
 5. (d >> 7) AND 0x01             (depassement)
 6. (d >> 8) AND 0x01             (producteur/consommateur)
 7. (d >> 9) AND 0x01             (sens energie active)
 8. (d >> 10) AND 0x0F, plus 1    (index tarifaire fourniture)
 9. (d >> 14) AND 0x07, plus 1    (index tarifaire distributeur)
10. (d >> 16) AND 0x01            (mode degrade horloge)
11. (d >> 17) AND 0x01            (sortie tele-information)
12. (d >> 19) AND 0x03            (Euridis)
13. (d >> 21) AND 0x03            (statut CPL)
14. (d >> 23) AND 0x01            (synchronisation CPL)
15. (d >> 24) AND 0x03            (tempo jour)
16. (d >> 26) AND 0x03            (tempo demain)
17. (d >> 28) AND 0x03            (preavis pointes mobiles)
18. (d >> 30) AND 0x03            (pointe mobile)

The shift and mask of each key, in that order: -/

def stge_bits : List (Nat × Nat) :=
  [(0, 0x01), (1, 0x07), (4, 0x01), (6, 0x01), (7, 0x01), (8, 0x01), (9, 0x01),
   (10, 0x0F), (14, 0x07), (16, 0x01), (17, 0x01), (19, 0x03), (21, 0x03),
   (23, 0x01), (24, 0x03), (26, 0x03), (28, 0x03), (30, 0x03)]

theorem stge_bits_len : (18 : Nat) = stge_bits.length := rfl

def stge_bit (i : Fin 18) : Nat × Nat := stge_bits.get (Fin.cast stge_bits_len i)

/-- The value extracted from the payload for one key. -/
def stge_val (d : Nat) (p : Nat × Nat) : Nat := (d >>> p.1) &&& p.2

/-- The set of payload bits a key reads, as a mask. -/
def stge_mask (p : Nat × Nat) : Nat := p.2 <<< p.1

/-- Key 9 of print_stge_data (supplier/distributor block): the
distributor tariff index reads bits 14 to 16. -/
def stge_sel_distributeur (d : Nat) : Nat := (d >>> 14) &&& 0x07

/-- Key 10 of print_stge_data: the degraded-clock flag reads bit 16. -/
def stge_sel_horloge (d : Nat) : Nat := (d >>> 16) &&& 0x01

/-- Counterexample for C6: bit 16 (the payload 0x10000 = 2 to the 16th,
differing from 0 in that single bit) changes both the distributor tariff
index key and the clock key, so the eighteen keys are not derived from
pairwise disjoint bit ranges; the two masks indeed share bit 16. -/
theorem stge_bit16_counterexample :
    stge_sel_distributeur 0x10000 ≠ stge_sel_distributeur 0 ∧
    stge_sel_horloge 0x10000 ≠ stge_sel_horloge 0 ∧
    stge_val 0x10000 (stge_bit ⟨8, by norm_num⟩) ≠ stge_val 0 (stge_bit ⟨8, by norm_num⟩) ∧
    stge_val 0x10000 (stge_bit ⟨9, by norm_num⟩) ≠ stge_val 0 (stge_bit ⟨9, by norm_num⟩) ∧
    stge_mask (stge_bit ⟨8, by norm_num⟩) &&& stge_mask (stge_bit ⟨9, by norm_num⟩) = 0x10000 := by
  decide

theorem stge_val_and_mask (d s m : Nat) :
    stge_val (d &&& stge_mask (s, m)) (s, m) = stge_val d (s, m) := by
  unfold stge_val stge_mask
  apply Nat.eq_of_testBit_eq
  intro i
  have hsub : s + i - s = i := by omega
  have hdec : (decide (s + i ≥ s)) = true := decide_eq_true (Nat.le_add_right s i)
  simp only [Nat.testBit_and, Nat.testBit_shiftRight, Nat.testBit_shiftLeft,
    hsub, hdec, Bool.true_and]
  cases hd : d.testBit (s + i) <;> cases hm : m.testBit i <;> simp

/-- Amended C6: the eighteen keys of the STGE decoder are computed from
pairwise disjoint bit ranges with one exception: bit 16 feeds both key 9
(the distributor tariff index, bits 14 to 16) and key 10 (the clock
flag, bit 16).  Every key reads only the bits of its own mask. -/
theorem stge_disjoint_except_bit16 :
    (∀ i j : Fin 18, i ≠ j →
       ¬(i.val = 8 ∧ j.val = 9) → ¬(i.val = 9 ∧ j.val = 8) →
       stge_mask (stge_bit i) &&& stge_mask (stge_bit j) = 0) ∧
    (∀ (i : Fin 18) (d : Nat),
       stge_val (d &&& stge_mask (stge_bit i)) (stge_bit i) = stge_val d (stge_bit i)) := by
  constructor
  · decide
  · intro i d
    exact stge_val_and_mask d (stge_bit i).1 (stge_bit i).2

/-- Witness for the amended C6: keys 1 and 2 have disjoint masks, and
key 9 only depends on the bits of its mask at the all-ones payload. -/
theorem stge_disjoint_except_bit16_witness :
    stge_mask (stge_bit ⟨0, by norm_num⟩) &&& stge_mask (stge_bit ⟨1, by norm_num⟩) = 0 ∧
    stge_val (0xFFFFFFFF &&& stge_mask (stge_bit ⟨8, by norm_num⟩)) (stge_bit ⟨8, by norm_num⟩)
      = stge_val 0xFFFFFFFF (stge_bit ⟨8, by norm_num⟩) :=
  ⟨stge_disjoint_except_bit16.1 ⟨0, by norm_num⟩ ⟨1, by norm_num⟩
      (by decide) (by decide) (by decide),
   stge_disjoint_except_bit16.2 ⟨8, by norm_num⟩ 0xFFFFFFFF⟩

/-! ## C7: bounds of the STGE string-table lookups

The string tables of print_stge_data, with their exact element counts
and NULL positions (none models a NULL entry; the visible strings are
ASCII transcriptions, only the shape of each table is relevant here). -/

def of_tbl : List (Option String) :=
  [some "ferme", some "ouvert"]

def coupure_tbl : List (Option String) :=
  [some "ferme", some "ouvert sur surpuissance", some "ouvert sur surtension",
   some "ouvert sur delestage", some "ouvert sur ordre CPL ou Euridis",
   some "ouvert sur surchauffe, courant superieur",
   some "ouvert sur surchauffe, courant inferieur", none]

def euridis_tbl : List (Option String) :=
  [some "desactivee", some "activee sans securite", none, some "activee avec securite"]

def cpl_tbl : List (Option String) :=
  [some "New/Unlock", some "New/Lock", some "Registered", none]

def tempo_tbl : List (Option String) :=
  [some "Pas d annonce", some "Bleu", some "Blanc", some "Rouge"]

def pm_tbl : List (Option String) :=
  [some "pas", some "PM1", some "PM2", some "PM3"]

/-- The nine table accesses performed by print_stge_data for a payload
d, each as the indexed table and the masked index the code uses. -/
def stge_lookups (d : Nat) : List (Option (Option String)) :=
  [of_tbl.get? (d &&& 0x01),
   coupure_tbl.get? ((d >>> 1) &&& 0x07),
   of_tbl.get? ((d >>> 4) &&& 0x01),
   euridis_tbl.get? ((d >>> 19) &&& 0x03),
   cpl_tbl.get? ((d >>> 21) &&& 0x03),
   tempo_tbl.get? ((d >>> 24) &&& 0x03),
   tempo_tbl.get? ((d >>> 26) &&& 0x03),
   pm_tbl.get? ((d >>> 28) &&& 0x03),
   pm_tbl.get? ((d >>> 30) &&& 0x03)]

theorem get?_isSome_of_lt (l : List (Option String)) (n : Nat) (h : n < l.length) :
    (l.get? n).isSome = true := by
  rw [List.get?_eq_get h]
  rfl

/-- Claim C7: for every 32-bit payload (indeed every natural payload, so in
particular 0xFFFFFFFF) each masked index of the STGE decoder is within
the bounds of the table it accesses: every one of the nine lookups
returns an element. -/
theorem stge_lookups_inbounds (d : Nat) :
    ((stge_lookups d).all Option.isSome) = true := by
  have h1 : (d &&& 0x01) < of_tbl.length :=
    Nat.lt_succ_of_le (le_trans Nat.and_le_right (by norm_num))
  have h2 : ((d >>> 1) &&& 0x07) < coupure_tbl.length :=
    Nat.lt_succ_of_le (le_trans Nat.and_le_right (by norm_num))
  have h3 : ((d >>> 4) &&& 0x01) < of_tbl.length :=
    Nat.lt_succ_of_le (le_trans Nat.and_le_right (by norm_num))
  have h4 : ((d >>> 19) &&& 0x03) < euridis_tbl.length :=
    Nat.lt_succ_of_le (le_trans Nat.and_le_right (by norm_num))
  have h5 : ((d >>> 21) &&& 0x03) < cpl_tbl.length :=
    Nat.lt_succ_of_le (le_trans Nat.and_le_right (by norm_num))
  have h6 : ((d >>> 24) &&& 0x03) < tempo_tbl.length :=
    Nat.lt_succ_of_le (le_trans Nat.and_le_right (by norm_num))
  have h7 : ((d >>> 26) &&& 0x03) < tempo_tbl.length :=
    Nat.lt_succ_of_le (le_trans Nat.and_le_right (by norm_num))
  have h8 : ((d >>> 28) &&& 0x03) < pm_tbl.length :=
    Nat.lt_succ_of_le (le_trans Nat.and_le_right (by norm_num))
  have h9 : ((d >>> 30) &&& 0x03) < pm_tbl.length :=
    Nat.lt_succ_of_le (le_trans Nat.and_le_right (by norm_num))
  simp only [stge_lookups, List.all_cons, List.all_nil, Bool.and_eq_true]
  exact ⟨get?_isSome_of_lt _ _ h1, get?_isSome_of_lt _ _ h2, get?_isSome_of_lt _ _ h3,
    get?_isSome_of_lt _ _ h4, get?_isSome_of_lt _ _ h5, get?_isSome_of_lt _ _ h6,
    get?_isSome_of_lt _ _ h7, get?_isSome_of_lt _ _ h8,
    ⟨get?_isSome_of_lt _ _ h9, trivial⟩⟩

/-! ## The day-profile decoder (print_pjour_data, tic2json.c)

print_pjour_data splits its payload on spaces with strsep, keeping at
most 11 nonempty blocks, then prints one object per block until the
first block starting with the character N (the first NONUTILE), each
object holding a start time built from the first two and the next two
characters of the block joined by a colon, and an action equal to the
four trailing characters converted by strtol in base 16 and cast to
uint16_t. -/

/-- Splitting on the space character, as the strsep loop does: every
maximal (possibly empty) run between separators becomes one token. -/
def splitOnSpace : List Char → List (List Char)
  | [] => [[]]
  | c :: rest =>
      match splitOnSpace rest with
      | [] => [[]]
      | g :: gs => if c = ' ' then [] :: g :: gs else (c :: g) :: gs

/-- The at most 11 nonempty blocks the strsep loop collects into argv. -/
def pjour_blocks (data : List Char) : List (List Char) :=
  ((splitOnSpace data).filter (fun b => !(b == []))).take 11

/-- The uint16_t cast of a long value. -/
def u16_of_long (z : Int) : Nat := (z % 65536).toNat

/-- One printed day-profile object: the start time "HH:MM" from the
first four characters and the decimal action from the last four read as
base-16 by strtol. -/
def pjour_entry (d : List Char) : List Char × Nat :=
  (d.take 2 ++ ':' :: ((d.drop 2).take 2),
   u16_of_long (clamp_long (strtol (d.drop 4) 16).val))

/-- The whole of print_pjour_data: blocks strictly before the first one
starting with N, each rendered as a start-time and action pair. -/
def print_pjour_data (data : List Char) : List (List Char × Nat) :=
  ((pjour_blocks data).takeWhile (fun d => !(d.head? == some 'N'))).map pjour_entry

def NONUTILE : List Char := ['N', 'O', 'N', 'U', 'T', 'I', 'L', 'E']

/-- A wire-format day-profile block: HHMMSSSS with four decimal then
four hexadecimal digits. -/
def isHHMMSSSS (b : List Char) : Bool :=
  b.length == 8 && (b.take 4).all (fun c => isDigitB 10 c) &&
    (b.drop 4).all (fun c => isDigitB 16 c)

def wf_block (b : List Char) : Bool :=
  isHHMMSSSS b || b == NONUTILE

def joinSpace : List (List Char) → List Char
  | [] => []
  | [b] => b
  | b :: bs => b ++ ' ' :: joinSpace bs

theorem splitOnSpace_ne_nil (s : List Char) : splitOnSpace s ≠ [] := by
  cases s with
  | nil => simp [splitOnSpace]
  | cons c rest =>
    show (match splitOnSpace rest with
          | [] => [[]]
          | g :: gs => if c = ' ' then [] :: g :: gs else (c :: g) :: gs) ≠ []
    cases splitOnSpace rest with
    | nil => simp
    | cons g gs =>
      show ¬(if c = ' ' then [] :: g :: gs else (c :: g) :: gs) = []
      split <;> simp

theorem splitOnSpace_no_sep (b : List Char) (h : ' ' ∉ b) :
    splitOnSpace b = [b] := by
  induction b with
  | nil => rfl
  | cons c rest ih =>
    have hc : c ≠ ' ' := fun hh => h (hh ▸ List.mem_cons_self c rest)
    have hr : ' ' ∉ rest := fun hh => h (List.mem_cons_of_mem c hh)
    show (match splitOnSpace rest with
          | [] => [[]]
          | g :: gs => if c = ' ' then [] :: g :: gs else (c :: g) :: gs) = [c :: rest]
    rw [ih hr]
    simp [hc]

theorem splitOnSpace_append (b t : List Char) (h : ' ' ∉ b) :
    splitOnSpace (b ++ ' ' :: t) = b :: splitOnSpace t := by
  induction b with
  | nil =>
    show (match splitOnSpace t with
          | [] => [[]]
          | g :: gs => if ' ' = ' ' then [] :: g :: gs else (' ' :: g) :: gs) = [] :: splitOnSpace t
    cases hs : splitOnSpace t with
    | nil => exact absurd hs (splitOnSpace_ne_nil t)
    | cons g gs => simp
  | cons c rest ih =>
    have hc : c ≠ ' ' := fun hh => h (hh ▸ List.mem_cons_self c rest)
    have hr : ' ' ∉ rest := fun hh => h (List.mem_cons_of_mem c hh)
    show (match splitOnSpace (rest ++ ' ' :: t) with
          | [] => [[]]
          | g :: gs => if c = ' ' then [] :: g :: gs else (c :: g) :: gs) = (c :: rest) :: splitOnSpace t
    rw [ih hr]
    simp [hc]

theorem splitOnSpace_joinSpace (bs : List (List Char)) (hne : bs ≠ [])
    (h : ∀ b ∈ bs, ' ' ∉ b) :
    splitOnSpace (joinSpace bs) = bs := by
  induction bs with
  | nil => exact absurd rfl hne
  | cons b bs ih =>
    cases bs with
    | nil =>
      show splitOnSpace (joinSpace [b]) = [b]
      exact splitOnSpace_no_sep b (h b (List.mem_cons_self b []))
    | cons b2 bs2 =>
      show splitOnSpace (b ++ ' ' :: joinSpace (b2 :: bs2)) = b :: b2 :: bs2
      rw [splitOnSpace_append b _ (h b (List.mem_cons_self b _)),
          ih (by simp) (fun x hx => h x (List.mem_cons_of_mem b hx))]

theorem wf_block_shape (b : List Char) (h : wf_block b = true) :
    ' ' ∉ b ∧ b ≠ [] := by
  simp only [wf_block, Bool.or_eq_true, beq_iff_eq] at h
  rcases h with h | h
  · simp only [isHHMMSSSS, Bool.and_eq_true, beq_iff_eq] at h
    obtain ⟨⟨hlen, htake⟩, hdrop⟩ := h
    constructor
    · intro hmem
      rw [← List.take_append_drop 4 b, List.mem_append] at hmem
      rcases hmem with hmem | hmem
      · have := List.all_eq_true.mp htake _ hmem
        rw [show isDigitB 10 ' ' = false from by decide] at this
        exact Bool.noConfusion this
      · have := List.all_eq_true.mp hdrop _ hmem
        rw [show isDigitB 16 ' ' = false from by decide] at this
        exact Bool.noConfusion this
    · intro hh
      rw [hh] at hlen
      simp at hlen
  · subst h
    exact ⟨by decide, by decide⟩

theorem pjour_blocks_joinSpace (bs : List (List Char))
    (hlen : bs.length ≤ 11) (hwf : ∀ b ∈ bs, wf_block b = true) :
    pjour_blocks (joinSpace bs) = bs := by
  cases bs with
  | nil => rfl
  | cons b0 bs0 =>
    unfold pjour_blocks
    rw [splitOnSpace_joinSpace _ (by simp)
        (fun b hb => (wf_block_shape b (hwf b hb)).1)]
    rw [List.filter_eq_self.mpr
        (fun b hb => by simp [(wf_block_shape b (hwf b hb)).2])]
    exact List.take_of_length_le hlen

theorem u16_of_long_small (v : Nat) (h : v < 65536) :
    u16_of_long (clamp_long (v : Int)) = v := by
  have hc : clamp_long (v : Int) = (v : Int) := by
    unfold clamp_long LONG_MAX
    rw [if_neg (by omega), if_neg (by omega)]
  rw [hc]
  unfold u16_of_long
  rw [Int.emod_eq_of_lt (by omega) (by omega)]
  exact Int.toNat_natCast v

theorem isHHMMSSSS_head (b : List Char) (h : isHHMMSSSS b = true) :
    ∃ c r2, b = c :: r2 ∧ isDigitB 10 c = true := by
  simp only [isHHMMSSSS, Bool.and_eq_true, beq_iff_eq] at h
  obtain ⟨⟨hlen, htake⟩, _⟩ := h
  cases b with
  | nil => simp at hlen
  | cons c r2 =>
    refine ⟨c, r2, rfl, ?_⟩
    have hmem : c ∈ (c :: r2).take 4 := by simp
    exact List.all_eq_true.mp htake _ hmem

theorem pjour_entry_hhmm (b : List Char) (h : isHHMMSSSS b = true) :
    pjour_entry b =
      (b.take 2 ++ ':' :: ((b.drop 2).take 2), natOfDigits 16 (b.drop 4)) := by
  have h0 := h
  simp only [isHHMMSSSS, Bool.and_eq_true, beq_iff_eq] at h
  obtain ⟨⟨hlen, _⟩, hdrop⟩ := h
  have hld : (b.drop 4).length = 4 := by rw [List.length_drop, hlen]
  have hne : b.drop 4 ≠ [] := by
    intro hh
    rw [hh] at hld
    simp at hld
  have hstr : strtol (b.drop 4) 16 = ⟨(natOfDigits 16 (b.drop 4) : Int), []⟩ := by
    have hx := strtol_digits 16 (by norm_num) (by norm_num) (b.drop 4) [] hne hdrop
      (fun c hc => by simp at hc)
    rw [List.append_nil] at hx
    exact hx
  have hv : natOfDigits 16 (b.drop 4) < 65536 := by
    have hb := natOfDigits_lt 16 (by norm_num) (b.drop 4) hdrop
    rw [hld] at hb
    norm_num at hb
    exact hb
  unfold pjour_entry
  rw [hstr]
  rw [show (⟨(natOfDigits 16 (b.drop 4) : Int), []⟩ : StrtolOut).val
        = (natOfDigits 16 (b.drop 4) : Int) from rfl]
  rw [u16_of_long_small _ hv]

theorem pjour_takeWhile_map (bs : List (List Char))
    (hwf : ∀ b ∈ bs, wf_block b = true) :
    (bs.takeWhile (fun d => !(d.head? == some 'N'))).map pjour_entry =
      (bs.takeWhile (fun b => !(b == NONUTILE))).map
        (fun b => (b.take 2 ++ ':' :: ((b.drop 2).take 2), natOfDigits 16 (b.drop 4))) := by
  induction bs with
  | nil => rfl
  | cons b bs ih =>
    have hb := hwf b (List.mem_cons_self b bs)
    have hrest : ∀ x ∈ bs, wf_block x = true :=
      fun x hx => hwf x (List.mem_cons_of_mem b hx)
    rw [List.takeWhile_cons, List.takeWhile_cons]
    have hwb := hb
    simp only [wf_block, Bool.or_eq_true, beq_iff_eq] at hwb
    rcases hwb with hhh | hhh
    · obtain ⟨c, r2, hbe, hc⟩ := isHHMMSSSS_head b hhh
      have hcv : digitVal c < 10 := by
        have := hc
        simp only [isDigitB, decide_eq_true_eq] at this
        exact this
      have hcN : c ≠ 'N' := by
        intro hh
        subst hh
        rw [show digitVal 'N' = 23 from by decide] at hcv
        omega
      have h1 : (!(b.head? == some 'N')) = true := by
        rw [hbe]
        simp [hcN]
      have h2 : (!(b == NONUTILE)) = true := by
        have hbN : b ≠ NONUTILE := by
          intro hh
          rw [hh] at hbe
          have hceq : 'N' = c := by
            have hh2 := congrArg List.head? hbe
            simp [NONUTILE] at hh2
            exact hh2
          exact hcN hceq.symm
        simp [hbN]
      rw [if_pos h1, if_pos h2]
      simp only [List.map_cons]
      rw [pjour_entry_hhmm b hhh, ih hrest]
    · subst hhh
      rw [if_neg (by decide), if_neg (by decide)]
      rfl

/-- Claim C8: feeding print_pjour_data a payload made of at most eleven
space-separated blocks, each HHMMSSSS (four decimal then four
hexadecimal digits) or the literal NONUTILE, yields exactly one
start-time and action pair per block strictly before the first
NONUTILE, in order: the start time joins the first two and the next two
characters of the block with a colon and the action is the decimal
value of the last four characters read as a 16-bit hexadecimal number;
the first NONUTILE and every block after it produce nothing. -/
theorem print_pjour_correct (bs : List (List Char))
    (hlen : bs.length ≤ 11) (hwf : ∀ b ∈ bs, wf_block b = true) :
    print_pjour_data (joinSpace bs) =
      (bs.takeWhile (fun b => !(b == NONUTILE))).map
        (fun b => (b.take 2 ++ ':' :: ((b.drop 2).take 2), natOfDigits 16 (b.drop 4))) := by
  unfold print_pjour_data
  rw [pjour_blocks_joinSpace bs hlen hwf, pjour_takeWhile_map bs hwf]

/-- Witness for C8: the documentation scenario, three blocks then two
NONUTILE, rendered with actions 16387, 16388, 16387. -/
theorem print_pjour_correct_witness :
    print_pjour_data (joinSpace
      ["00004003".toList, "06004004".toList, "22004003".toList, NONUTILE, NONUTILE]) =
      [("00:00".toList, 16387), ("06:00".toList, 16388), ("22:00".toList, 16387)] :=
  (print_pjour_correct
      ["00004003".toList, "06004004".toList, "22004003".toList, NONUTILE, NONUTILE]
      (by decide) (by decide)).trans (by decide)
